import Mathlib

/-!
Verification development for the xlog structured-logging library
(effective-security/xlog): a shallow embedding of the level-gated logging
registry, the package-logger call path, the key/value flattening, the
context key/value accumulation, the log-rotation wrapper, and the
asynchronous channel writer, together with theorems settling the spec's
claims about them.

Go slices are modelled as Lean lists except where slice aliasing is the
point (the `GoHeap`/`GoSlice` model below); Go maps are modelled as
association lists; panics are modelled as `Option`/flag results.
-/

/-- A Go `any` value, restricted to the shapes the logging call paths
construct: `nil`, strings, ints, bools, and the one-element `[]any`
slice that `internalLogf` wraps around the Sprintf result. -/
inductive GoVal where
  | vNil : GoVal
  | vStr : String → GoVal
  | vInt : Int → GoVal
  | vBool : Bool → GoVal
  | vStrSlice : String → GoVal
deriving DecidableEq, Repr

/-- LogLevel from logmap.go: `CRITICAL = iota - 1`, so CRITICAL = -1,
ERROR = 0, WARNING = 1, NOTICE = 2, INFO = 3, TRACE = 4, DEBUG = 5. -/
inductive LogLevel where
  | CRITICAL : LogLevel
  | ERROR : LogLevel
  | WARNING : LogLevel
  | NOTICE : LogLevel
  | INFO : LogLevel
  | TRACE : LogLevel
  | DEBUG : LogLevel
deriving DecidableEq, Repr

/-- The int8 value backing each LogLevel constant. -/
def LogLevel.toInt : LogLevel → Int
  | .CRITICAL => -1
  | .ERROR => 0
  | .WARNING => 1
  | .NOTICE => 2
  | .INFO => 3
  | .TRACE => 4
  | .DEBUG => 5

/-- Go's `<` on the int8-valued LogLevel. -/
def LogLevel.blt (a b : LogLevel) : Bool := a.toInt < b.toInt

/-- ParseLevel from logmap.go. Go returns `(LogLevel, error)`; the error
is modelled as `Option String` and the returned level on the error path
is CRITICAL, exactly as in the source (`return CRITICAL, errors.New(...)`). -/
def ParseLevel (s : String) : LogLevel × Option String :=
  if s = "CRITICAL" ∨ s = "C" then (.CRITICAL, none)
  else if s = "ERROR" ∨ s = "0" ∨ s = "E" then (.ERROR, none)
  else if s = "WARNING" ∨ s = "1" ∨ s = "W" then (.WARNING, none)
  else if s = "NOTICE" ∨ s = "2" ∨ s = "N" then (.NOTICE, none)
  else if s = "INFO" ∨ s = "3" ∨ s = "I" then (.INFO, none)
  else if s = "TRACE" ∨ s = "4" ∨ s = "T" then (.TRACE, none)
  else if s = "DEBUG" ∨ s = "5" ∨ s = "D" then (.DEBUG, none)
  else (.CRITICAL, some ("unable to parse log level: " ++ s))

/-- EscapedString from formatters.go, on the modelled value domain.
The JSON escaping of special characters inside strings is
presentation-layer (excluded by the spec) and is elided: a string value
is trimmed and quoted. -/
def EscapedString : GoVal → String
  | .vNil => "null"
  | .vStr s => "\"" ++ s.trim ++ "\""
  | .vInt n => toString n
  | .vBool b => if b then "true" else "false"
  | .vStrSlice s => "[\"" ++ s ++ "\"]"

/-- flatten from formatters.go (the `flatten(printEmpty bool, kvList ...any)`
variant): walks the list two at a time, panics (modelled as `none`) when a
key position does not hold a string, treats a missing final value as nil,
skips nil values unless `printEmpty` is set, skips values rendering to `""`
unless `printEmpty` is set, truncates long renderings, and emits
`key=value` strings in order. `flattenStep` is the loop body for one
key/value pair. -/
def flattenStep (printEmpty : Bool) (ks : String) (v : GoVal)
    (restRes : Option (List GoVal)) : Option (List GoVal) :=
  if v = GoVal.vNil && !printEmpty then restRes
  else
    let val := EscapedString v
    let val := if val.length > 1024 then val.take 1024 ++ "...\"" else val
    if val ≠ "\"\"" ∨ printEmpty then
      restRes.map (fun l => GoVal.vStr (ks ++ "=" ++ val) :: l)
    else restRes

/-- flatten from formatters.go, two entries at a time (see `flattenStep`). -/
def flattenGo (printEmpty : Bool) : List GoVal → Option (List GoVal)
  | [] => some []
  | [k] =>
    match k with
    | .vStr ks => flattenStep printEmpty ks GoVal.vNil (some [])
    | _ => none
  | k :: v :: tail =>
    match k with
    | .vStr ks => flattenStep printEmpty ks v (flattenGo printEmpty tail)
    | _ => none

/-- The registry state visible to a single log call: whether a global
formatter is installed and whether an onError callback is registered
(logmap.go `loggerStruct.formatter` / `.onError`). -/
structure LoggerConfig where
  formatterSet : Bool
  onErrorSet : Bool
deriving DecidableEq, Repr

/-- entriesType from packagelogger.go. -/
inductive EntriesType where
  | plain : EntriesType
  | kv : EntriesType
deriving DecidableEq, Repr

/-- One call forwarded to the registry's formatter (Format or FormatKV). -/
structure FormatCall where
  isKV : Bool
  pkg : String
  level : LogLevel
  depth : Int
  entries : List GoVal
deriving DecidableEq, Repr

/-- The observable effects of one internalLog/internalLogf call:
the onError invocations (in order) and the formatter call, if any. -/
structure LogEffects where
  onErrorCalls : List String
  formatted : Option FormatCall
deriving DecidableEq, Repr

/-- The observable effects of one internalLogf call; `panicked` records
that `flatten` panicked while rendering the accumulated values (after the
onError hook already fired, before any formatter call). -/
structure LogfEffects where
  onErrorCalls : List String
  formatted : Option FormatCall
  panicked : Bool
deriving DecidableEq, Repr

/-- PackageLogger from packagelogger.go, with the accumulated values
slice viewed as a list (the aliasing-aware slice model appears separately
below for the WithValues claim). -/
structure PackageLogger where
  pkg : String
  level : LogLevel
  values : List GoVal
deriving DecidableEq, Repr

/-- calldepth from packagelogger.go. -/
def calldepth : Int := 2

/-- Go's fmt.Sprintf, modelled as the format string followed by the
rendered arguments (verb substitution is presentation-layer and excluded
by the spec; no claim inspects the rendered text). -/
def goSprintf (format : String) (args : List GoVal) : String :=
  format ++ String.join (args.map fun a => " " ++ EscapedString a)

/-- internalLog from packagelogger.go: fires onError for ERROR entries
before the level gate, drops the entry when the level is not CRITICAL and
the configured level is below it, prepends the accumulated values, and
forwards to Format/FormatKV when a formatter is installed. -/
def internalLog (cfg : LoggerConfig) (p : PackageLogger) (t : EntriesType)
    (depth : Int) (inLevel : LogLevel) (entries : List GoVal) : LogEffects :=
  let onErr := if inLevel = .ERROR ∧ cfg.onErrorSet then [p.pkg] else []
  if inLevel ≠ .CRITICAL ∧ p.level.blt inLevel then
    { onErrorCalls := onErr, formatted := none }
  else
    let entries := if p.values.length > 0 then p.values ++ entries else entries
    if cfg.formatterSet then
      { onErrorCalls := onErr
        formatted := some ⟨t = .kv, p.pkg, inLevel, depth + 1, entries⟩ }
    else
      { onErrorCalls := onErr, formatted := none }

/-- internalLogf from packagelogger.go: same onError-then-gate structure;
on emission it formats the message string, flattens the accumulated
values (which can panic on a non-string key) and appends the one-element
message slice as a single entry, then calls Format. -/
def internalLogf (cfg : LoggerConfig) (p : PackageLogger) (depth : Int)
    (inLevel : LogLevel) (format : String) (args : List GoVal) : LogfEffects :=
  let onErr := if inLevel = .ERROR ∧ cfg.onErrorSet then [p.pkg] else []
  if inLevel ≠ .CRITICAL ∧ p.level.blt inLevel then
    { onErrorCalls := onErr, formatted := none, panicked := false }
  else if cfg.formatterSet then
    let s := goSprintf format args
    if p.values.length > 0 then
      match flattenGo false p.values with
      | none => { onErrorCalls := onErr, formatted := none, panicked := true }
      | some flat =>
        { onErrorCalls := onErr
          formatted := some ⟨false, p.pkg, inLevel, depth + 1, flat ++ [GoVal.vStrSlice s]⟩
          panicked := false }
    else
      { onErrorCalls := onErr
        formatted := some ⟨false, p.pkg, inLevel, depth + 1, [GoVal.vStr s]⟩
        panicked := false }
  else
    { onErrorCalls := onErr, formatted := none, panicked := false }

/-- PackageLogger.Log. -/
def PackageLogger.Log (cfg : LoggerConfig) (p : PackageLogger)
    (l : LogLevel) (args : List GoVal) : LogEffects :=
  internalLog cfg p .plain calldepth l args

/-- PackageLogger.Logf. -/
def PackageLogger.Logf (cfg : LoggerConfig) (p : PackageLogger)
    (l : LogLevel) (format : String) (args : List GoVal) : LogfEffects :=
  internalLogf cfg p calldepth l format args

/-- PackageLogger.KV. -/
def PackageLogger.KV (cfg : LoggerConfig) (p : PackageLogger)
    (l : LogLevel) (entries : List GoVal) : LogEffects :=
  internalLog cfg p .kv calldepth l entries

/-- PackageLogger.ContextKV: the entries accumulated on the context are
prepended to the call-supplied entries (when nonempty), then processed
as a KV call. -/
def PackageLogger.ContextKV (cfg : LoggerConfig) (p : PackageLogger)
    (ctxEntries : List GoVal) (l : LogLevel) (entries : List GoVal) : LogEffects :=
  internalLog cfg p .kv calldepth l
    (if ctxEntries.length > 0 then ctxEntries ++ entries else entries)

/-- A repository's package map from logmap.go (`RepoLogger`): package
name to the registered logger's current level, as an association list
(the Go map's iteration order is quantified over where it matters). -/
abbrev RepoLoggerL := List (String × LogLevel)

/-- The registry's `repoMap`: repository name to its package map. -/
abbrev Registry := List (String × RepoLoggerL)

/-- First-match association lookup. -/
def assocLookup (m : List (String × α)) (k : String) : Option α :=
  match m with
  | [] => none
  | p :: rest => if p.1 = k then some p.2 else assocLookup rest k

/-- setRepoLogLevelInternal from logmap.go: sets every registered
package's level. -/
def setRepoLogLevelInternal (r : RepoLoggerL) (l : LogLevel) : RepoLoggerL :=
  r.map (fun kv => (kv.1, l))

/-- SetGlobalLogLevel from logmap.go. -/
def SetGlobalLogLevel (st : Registry) (l : LogLevel) : Registry :=
  st.map (fun rv => (rv.1, setRepoLogLevelInternal rv.2 l))

/-- GetRepoLogger from logmap.go: errors when the repository was never
registered. -/
def GetRepoLogger (st : Registry) (repo : String) : Option RepoLoggerL :=
  assocLookup st repo

/-- SetRepoLogLevel (the package-level function) from logmap.go: a
lookup failure leaves the registry unchanged. -/
def SetRepoLogLevelR (st : Registry) (repo : String) (l : LogLevel) : Registry :=
  match GetRepoLogger st repo with
  | none => st
  | some _ => st.map (fun rv => if rv.1 = repo then (rv.1, setRepoLogLevelInternal rv.2 l) else rv)

/-- SetPackageLogLevel from logmap.go: `""` or `"*"` delegates to
SetRepoLogLevel; otherwise the level is set only when both the
repository and the package are registered. -/
def SetPackageLogLevel (st : Registry) (repo pkg : String) (l : LogLevel) : Registry :=
  if pkg = "" ∨ pkg = "*" then SetRepoLogLevelR st repo l
  else
    match GetRepoLogger st repo with
    | none => st
    | some r =>
      if (assocLookup r pkg).isSome then
        st.map (fun rv =>
          if rv.1 = repo then
            (rv.1, rv.2.map (fun kv => if kv.1 = pkg then (kv.1, l) else kv))
          else rv)
      else st

/-- RepoLogLevel from logmap.go. -/
structure RepoLogLevel where
  Repo : String
  Package : String
  Level : String
deriving DecidableEq, Repr

/-- SetRepoLevel from logmap.go: `l, _ := ParseLevel(cfg.Level)` — the
parse error is discarded, so a malformed level string yields CRITICAL. -/
def SetRepoLevel (st : Registry) (cfg : RepoLogLevel) : Registry :=
  let l := (ParseLevel cfg.Level).1
  if cfg.Repo = "*" then SetGlobalLogLevel st l
  else SetPackageLogLevel st cfg.Repo cfg.Package l

/-- SetRepoLevels from logmap.go: applies the entries in order. -/
def SetRepoLevels (st : Registry) (cfgs : List RepoLogLevel) : Registry :=
  cfgs.foldl SetRepoLevel st

/-- RepoLogger.SetLogLevel from logmap.go, with the Go map's iteration
order made explicit as a list of key/value pairs: the `"*"` entry (looked
up directly in the map) is processed first via setRepoLogLevelInternal,
then every map entry is applied in iteration order, ignoring packages
that are not registered. `setLogLevelStep` is the loop body: one map
entry applied to the repository, ignored when unregistered. -/
def setLogLevelStep (acc : RepoLoggerL) (kv : String × LogLevel) : RepoLoggerL :=
  if (assocLookup acc kv.1).isSome then
    acc.map (fun p => if p.1 = kv.1 then (p.1, kv.2) else p)
  else acc

def SetLogLevel (order : List (String × LogLevel)) (r : RepoLoggerL) : RepoLoggerL :=
  let r1 := match assocLookup order "*" with
    | some l => setRepoLogLevelInternal r l
    | none => r
  order.foldl setLogLevelStep r1

/-- NewPackageLogger from logmap.go: registers the (repo, pkg) pair with
default level INFO when absent, and otherwise returns the state of the
already-registered logger, leaving the registry unchanged. The returned
level is the registered logger's current level. -/
def NewPackageLogger (st : Registry) (repo pkg : String) : Registry × LogLevel :=
  match GetRepoLogger st repo with
  | none => (st ++ [(repo, [(pkg, .INFO)])], .INFO)
  | some r =>
    match assocLookup r pkg with
    | some l => (st, l)
    | none =>
      (st.map (fun rv => if rv.1 = repo then (rv.1, rv.2 ++ [(pkg, .INFO)]) else rv), .INFO)

/-- The current level registered for (repo, pkg). -/
def lookupLevel (st : Registry) (repo pkg : String) : Option LogLevel :=
  (GetRepoLogger st repo).bind (fun r => assocLookup r pkg)

/-- The context's internal key/value map (contextLogs.kvMap from
context.go), as an association list. -/
abbrev KVMap := List (String × GoVal)

/-- Lookup in the context map. -/
def mapLookup (m : KVMap) (k : String) : Option GoVal := assocLookup m k

/-- Go map assignment `kvMap[key] = value`. -/
def mapInsert (m : KVMap) (k : String) (v : GoVal) : KVMap :=
  if (assocLookup m k).isSome then
    m.map (fun p => if p.1 = k then (p.1, v) else p)
  else m ++ [(k, v)]

/-- Go map `delete(kvMap, key)`. -/
def mapDelete (m : KVMap) (k : String) : KVMap :=
  m.filter (fun p => p.1 ≠ k)

/-- The values context.go removes from the map: nil, or the empty
string. -/
def isRemoveVal : GoVal → Bool
  | .vNil => true
  | .vStr s => s = ""
  | _ => false

/-- The pair-processing loop of ContextWithKV from context.go: each key
must be a string (otherwise panic, modelled as `none`); a nil or
empty-string value deletes the key, any other value is stored with the
latest value winning. -/
def processPairs (m : KVMap) : List GoVal → Option KVMap
  | [] => some m
  | [_] => some m
  | k :: v :: rest =>
    match k with
    | .vStr ks =>
      if isRemoveVal v then processPairs (mapDelete m ks) rest
      else processPairs (mapInsert m ks v) rest
    | _ => none

/-- ContextWithKV from context.go, acting on the optional contextLogs
value stored in the context: an odd number of entries panics (`none`), a
missing value allocates an empty map, then the pairs are processed. -/
def ContextWithKV (prior : Option KVMap) (entries : List GoVal) : Option KVMap :=
  if entries.length % 2 ≠ 0 then none
  else processPairs (prior.getD []) entries

/-- The recomputed `entries` slice of contextLogs: the surviving keys in
sorted order, each followed by its value (context.go sorts the keys and
rebuilds the alternating slice after every update). -/
def ctxEntries (m : KVMap) : List GoVal :=
  let keys := (m.map Prod.fst).insertionSort (· ≤ ·)
  keys.foldr (fun k acc => GoVal.vStr k :: (mapLookup m k).getD GoVal.vNil :: acc) []

/-- ContextEntries from context.go: `none` when the context never held
log entries. -/
def ContextEntries (prior : Option KVMap) : Option (List GoVal) :=
  prior.map ctxEntries

/-- A sequence of ContextWithKV calls starting from a fresh context;
`none` when some call panicked. -/
def applyCalls (calls : List (List GoVal)) : Option KVMap :=
  calls.foldl (fun acc c => acc.bind (fun m => ContextWithKV (some m) c))
    (some [])

/-- The observable side effects of logrotator.Close (logrotate.go):
whether the bufio file buffer was flushed, which formatter the global
registry was reset to, and whether ChannelWriter.Stop was called. -/
structure CloseEffects where
  fileFlushed : Bool
  formatterRestoredTo : Option String
  channelStopCalled : Bool
deriving DecidableEq, Repr

/-- logrotator from logrotate.go. `hasFileBuf` is true exactly when
Initialize was given no extra sink (the bufio.Writer path); `hasChannel`
when `buffered` was requested; formatters are identified abstractly by
name. -/
structure Logrotator where
  oldFormatter : String
  hasFileBuf : Bool
  hasChannel : Bool
  closed : Bool
deriving DecidableEq, Repr

/-- Initialize from logrotate.go, on its success path (directory
creation succeeded): captures the previous global formatter, chooses the
bufio path exactly when there is no extra sink, and attaches a
ChannelWriter when `buffered` is set. The returned handle is open. -/
def Initialize (buffered hasExtraSink : Bool) (oldFormatter : String) : Logrotator :=
  { oldFormatter := oldFormatter
    hasFileBuf := !hasExtraSink
    hasChannel := buffered
    closed := false }

/-- logrotator.Close from logrotate.go: an already-closed handle returns
the "already closed" error and does nothing; otherwise it marks the
handle closed, flushes the file buffer when present, restores the prior
formatter, and stops the channel writer when present (clearing it). -/
def Logrotator.Close (c : Logrotator) : Option String × Logrotator × CloseEffects :=
  if c.closed then
    (some "already closed", c, ⟨false, none, false⟩)
  else
    (none,
     { oldFormatter := c.oldFormatter
       hasFileBuf := c.hasFileBuf
       hasChannel := false
       closed := true },
     ⟨c.hasFileBuf, some c.oldFormatter, c.hasChannel⟩)

/-- Modelled from the spec: the ChannelWriter (AsyncBufferedWriter) of
the logrotate package, whose implementation file is not present in the
repository snapshot (only its test and its caller are). Per §4.3 of the
spec it is a bounded FIFO queue of copied buffers drained by one
background consumer; `Stop` drains everything still queued to the sink
and then marks the writer stopped. Buffers are byte strings. -/
structure ChannelWriter where
  queue : List (List Nat)
  sink : List (List Nat)
  stopped : Bool
deriving DecidableEq, Repr

/-- Modelled from the spec: a fresh ChannelWriter bound to an empty
sink. -/
def ChannelWriter.init : ChannelWriter :=
  { queue := [], sink := [], stopped := false }

/-- Modelled from the spec: Write enqueues a copy of the buffer when the
writer is still running; a stopped writer rejects the write (the Bool
reports acceptance). -/
def ChannelWriter.write (w : ChannelWriter) (b : List Nat) : ChannelWriter × Bool :=
  if w.stopped then (w, false)
  else ({ w with queue := w.queue ++ [b] }, true)

/-- Modelled from the spec: one step of the background consumer — move
the oldest queued buffer to the destination sink (a no-op while the
queue is empty and the consumer is blocked waiting). -/
def ChannelWriter.drainOne (w : ChannelWriter) : ChannelWriter :=
  match w.queue with
  | [] => w
  | b :: rest => { queue := rest, sink := w.sink ++ [b], stopped := w.stopped }

/-- `n` background consumer steps. -/
def ChannelWriter.drainN (w : ChannelWriter) : Nat → ChannelWriter
  | 0 => w
  | n + 1 => (w.drainOne).drainN n

/-- Modelled from the spec: Stop signals the background task, waits for
it to drain whatever is still queued to the sink, and returns with the
writer stopped (drain-to-completion, never drop-on-cancel). -/
def ChannelWriter.stop (w : ChannelWriter) : ChannelWriter :=
  { queue := [], sink := w.sink ++ w.queue, stopped := true }

/-- A producer writing the buffers in order, with `ds.get i` background
consumer steps scheduled after the i-th write — an arbitrary
interleaving of the racing background drain with the producer. -/
def ChannelWriter.runWrites (w : ChannelWriter) : List (List Nat) → List Nat → ChannelWriter
  | [], _ => w
  | b :: bs, ds => ChannelWriter.runWrites (((w.write b).1).drainN (ds.headD 0)) bs (ds.drop 1)

/-- The backing store of Go slices whose aliasing matters: array id to
array contents (arrays have length equal to the slice capacity). -/
abbrev GoHeap := List (List GoVal)

/-- A Go slice header: backing array id, length, capacity. -/
structure GoSlice where
  id : Nat
  len : Nat
  cap : Nat
deriving DecidableEq, Repr

/-- The elements a slice makes visible. -/
def GoSlice.view (s : GoSlice) (h : GoHeap) : List GoVal :=
  (h.getD s.id []).take s.len

/-- Overwrite `arr` starting at position `i` with `xs`. -/
def writeAt (arr : List GoVal) (i : Nat) (xs : List GoVal) : List GoVal :=
  arr.take i ++ xs ++ arr.drop (i + xs.length)

/-- Go's `append(s, xs...)`: when the capacity suffices the backing
array is reused and the new elements are written in place (the Go
specification mandates reuse in this case); otherwise a fresh array is
allocated holding the old elements followed by the new ones (the exact
spare capacity Go's allocator grants the fresh array is
implementation-defined and modelled as zero — no claim depends on it). -/
def goAppend (h : GoHeap) (s : GoSlice) (xs : List GoVal) : GoHeap × GoSlice :=
  if s.len + xs.length ≤ s.cap then
    (h.set s.id (writeAt (h.getD s.id []) s.len xs), ⟨s.id, s.len + xs.length, s.cap⟩)
  else
    let contents := s.view h ++ xs
    (h ++ [contents], ⟨h.length, contents.length, contents.length⟩)

/-- A slice header valid for a heap. -/
def GoSlice.WF (s : GoSlice) (h : GoHeap) : Prop :=
  s.id < h.length ∧ s.len ≤ s.cap ∧ (h.getD s.id []).length = s.cap

/-- PackageLogger with the accumulated-values slice kept at the Go
memory level, for the WithValues aliasing analysis. -/
structure PackageLoggerMem where
  pkg : String
  level : LogLevel
  values : GoSlice
deriving DecidableEq, Repr

/-- WithValues from packagelogger.go at the slice level: a new handle
with the same identity and level whose values slice is
`append(p.values, keysAndValues...)`. -/
def PackageLoggerMem.withValues (h : GoHeap) (p : PackageLoggerMem)
    (keysAndValues : List GoVal) : GoHeap × PackageLoggerMem :=
  let res := goAppend h p.values keysAndValues
  (res.1, ⟨p.pkg, p.level, res.2⟩)

/-- PackageLogger.Error (plain variant; the other level-named helpers
are analogous wrappers fixing the level). -/
def PackageLogger.Error (cfg : LoggerConfig) (p : PackageLogger)
    (entries : List GoVal) : LogEffects :=
  internalLog cfg p .plain calldepth .ERROR entries

/-- PackageLogger.Warning. -/
def PackageLogger.Warning (cfg : LoggerConfig) (p : PackageLogger)
    (entries : List GoVal) : LogEffects :=
  internalLog cfg p .plain calldepth .WARNING entries

/-- PackageLogger.Notice. -/
def PackageLogger.Notice (cfg : LoggerConfig) (p : PackageLogger)
    (entries : List GoVal) : LogEffects :=
  internalLog cfg p .plain calldepth .NOTICE entries

/-- PackageLogger.Info. -/
def PackageLogger.Info (cfg : LoggerConfig) (p : PackageLogger)
    (entries : List GoVal) : LogEffects :=
  internalLog cfg p .plain calldepth .INFO entries

/-- PackageLogger.Debug. -/
def PackageLogger.Debug (cfg : LoggerConfig) (p : PackageLogger)
    (entries : List GoVal) : LogEffects :=
  internalLog cfg p .plain calldepth .DEBUG entries

/-- PackageLogger.Trace. -/
def PackageLogger.Trace (cfg : LoggerConfig) (p : PackageLogger)
    (entries : List GoVal) : LogEffects :=
  internalLog cfg p .plain calldepth .TRACE entries

lemma internalLog_formatted_isSome (cfg : LoggerConfig) (p : PackageLogger)
    (t : EntriesType) (d : Int) (l : LogLevel) (es : List GoVal)
    (hf : cfg.formatterSet = true) :
    (internalLog cfg p t d l es).formatted.isSome = true ↔
      (l = .CRITICAL ∨ l.toInt ≤ p.level.toInt) := by
  unfold internalLog
  rcases eq_or_ne l LogLevel.CRITICAL with hc | hc
  · subst hc
    simp [hf]
  · by_cases hlt : p.level.toInt < l.toInt
    · have hb : p.level.blt l = true := by
        simpa [LogLevel.blt] using hlt
      simp only [hc, hb, ne_eq, not_false_eq_true, true_and]
      simp [hc]
      omega
    · have hb : p.level.blt l = false := by
        simpa [LogLevel.blt] using hlt
      simp [hc, hb, hf]
      omega

lemma internalLogf_formatted_isSome (cfg : LoggerConfig) (p : PackageLogger)
    (d : Int) (l : LogLevel) (fm : String) (args : List GoVal)
    (hf : cfg.formatterSet = true)
    (hv : (flattenGo false p.values).isSome = true) :
    ((internalLogf cfg p d l fm args).formatted.isSome = true ↔
      (l = .CRITICAL ∨ l.toInt ≤ p.level.toInt)) ∧
    (internalLogf cfg p d l fm args).panicked = false := by
  obtain ⟨flat, hflat⟩ := Option.isSome_iff_exists.mp hv
  unfold internalLogf
  rcases eq_or_ne l LogLevel.CRITICAL with hc | hc
  · subst hc
    by_cases hlen : p.values.length > 0
    · simp [hf, hlen, hflat]
    · simp [hf, hlen]
  · by_cases hlt : p.level.toInt < l.toInt
    · have hb : p.level.blt l = true := by
        simpa [LogLevel.blt] using hlt
      simp only [hc, hb, ne_eq, not_false_eq_true, true_and]
      simp [hc]
      omega
    · have hb : p.level.blt l = false := by
        simpa [LogLevel.blt] using hlt
      by_cases hlen : p.values.length > 0
      · simp [hc, hb, hf, hlen, hflat]
        omega
      · simp [hc, hb, hf, hlen]
        omega

/-- C1: a log call through any of the package-logger entry points
(internalLog — used by Log, KV, ContextKV and the level-named helpers —
and internalLogf, used by Logf and the formatted helpers) reaches the
registry's formatter exactly when the entry's level is CRITICAL or the
logger's configured level is at least the entry's level; otherwise no
formatter call happens. -/
theorem levelGate_emits_iff
    (cfg : LoggerConfig) (p : PackageLogger) (t : EntriesType) (d : Int)
    (l : LogLevel) (es ces args : List GoVal) (fm : String)
    (hf : cfg.formatterSet = true)
    (hv : (flattenGo false p.values).isSome = true) :
    ((internalLog cfg p t d l es).formatted.isSome = true ↔
      (l = .CRITICAL ∨ l.toInt ≤ p.level.toInt)) ∧
    ((internalLogf cfg p d l fm args).formatted.isSome = true ↔
      (l = .CRITICAL ∨ l.toInt ≤ p.level.toInt)) ∧
    (internalLogf cfg p d l fm args).panicked = false ∧
    ((PackageLogger.Log cfg p l es).formatted.isSome = true ↔
      (l = .CRITICAL ∨ l.toInt ≤ p.level.toInt)) ∧
    ((PackageLogger.KV cfg p l es).formatted.isSome = true ↔
      (l = .CRITICAL ∨ l.toInt ≤ p.level.toInt)) ∧
    ((PackageLogger.ContextKV cfg p ces l es).formatted.isSome = true ↔
      (l = .CRITICAL ∨ l.toInt ≤ p.level.toInt)) ∧
    ((PackageLogger.Logf cfg p l fm args).formatted.isSome = true ↔
      (l = .CRITICAL ∨ l.toInt ≤ p.level.toInt)) := by
  refine ⟨internalLog_formatted_isSome cfg p t d l es hf,
    (internalLogf_formatted_isSome cfg p d l fm args hf hv).1,
    (internalLogf_formatted_isSome cfg p d l fm args hf hv).2,
    internalLog_formatted_isSome cfg p _ _ l es hf,
    internalLog_formatted_isSome cfg p _ _ l es hf,
    internalLog_formatted_isSome cfg p _ _ l _ hf,
    (internalLogf_formatted_isSome cfg p _ l fm args hf hv).1⟩

/-- Witness for `levelGate_emits_iff` at a concrete configuration: a
WARNING entry against a configured INFO level is emitted. -/
theorem levelGate_emits_iff_witness :
    (({ formatterSet := true, onErrorSet := false } : LoggerConfig).formatterSet = true ∧
      (flattenGo false ([] : List GoVal)).isSome = true) ∧
    ((internalLog ⟨true, false⟩ ⟨"pkg", .INFO, []⟩ .plain 2 .WARNING [.vStr "m"]).formatted.isSome = true ↔
      (LogLevel.WARNING = .CRITICAL ∨ LogLevel.WARNING.toInt ≤ LogLevel.INFO.toInt)) :=
  ⟨⟨rfl, rfl⟩,
    (levelGate_emits_iff ⟨true, false⟩ ⟨"pkg", .INFO, []⟩ .plain 2 .WARNING
      [.vStr "m"] [] [] "f" rfl rfl).1⟩

lemma internalLog_onErrorCalls (cfg : LoggerConfig) (p : PackageLogger)
    (t : EntriesType) (d : Int) (l : LogLevel) (es : List GoVal) :
    (internalLog cfg p t d l es).onErrorCalls =
      (if l = .ERROR ∧ cfg.onErrorSet then [p.pkg] else []) := by
  unfold internalLog
  repeat' split
  all_goals rfl

lemma internalLogf_onErrorCalls (cfg : LoggerConfig) (p : PackageLogger)
    (d : Int) (l : LogLevel) (fm : String) (args : List GoVal) :
    (internalLogf cfg p d l fm args).onErrorCalls =
      (if l = .ERROR ∧ cfg.onErrorSet then [p.pkg] else []) := by
  unfold internalLogf
  repeat' split
  all_goals rfl

/-- C3: with an onError callback registered, every ERROR-level call
through internalLog or internalLogf invokes the callback exactly once
(with the package name), independently of the configured level and of
whether the entry is emitted — the hook fires before the level gate —
and calls at every other level (CRITICAL included) never invoke it. -/
theorem onError_fires_only_on_error_level
    (cfg : LoggerConfig) (p : PackageLogger) (t : EntriesType) (d : Int)
    (l : LogLevel) (es args : List GoVal) (fm : String)
    (ho : cfg.onErrorSet = true) :
    (internalLog cfg p t d l es).onErrorCalls =
      (if l = .ERROR then [p.pkg] else []) ∧
    (internalLogf cfg p d l fm args).onErrorCalls =
      (if l = .ERROR then [p.pkg] else []) := by
  rw [internalLog_onErrorCalls, internalLogf_onErrorCalls]
  constructor <;> · rcases eq_or_ne l LogLevel.ERROR with hc | hc <;> simp [hc, ho]

/-- Witness for `onError_fires_only_on_error_level`: an ERROR entry that
is filtered out (configured level CRITICAL < ERROR) still fires the
hook once, by the first conjunct. -/
theorem onError_fires_only_on_error_level_witness :
    (({ formatterSet := true, onErrorSet := true } : LoggerConfig).onErrorSet = true) ∧
    (internalLog ⟨true, true⟩ ⟨"pkg", .CRITICAL, []⟩ .plain 2 .ERROR [.vStr "m"]).onErrorCalls =
      (if LogLevel.ERROR = .ERROR then ["pkg"] else []) :=
  ⟨rfl,
    (onError_fires_only_on_error_level ⟨true, true⟩ ⟨"pkg", .CRITICAL, []⟩ .plain 2 .ERROR
      [.vStr "m"] [] "f" rfl).1⟩

lemma parseLevel_error_value (s : String)
    (h : (ParseLevel s).2.isSome = true) : (ParseLevel s).1 = .CRITICAL := by
  revert h
  unfold ParseLevel
  repeat' split
  all_goals simp

/-- C4 (amended): applying an ordered level-configuration list is a
left fold of SetRepoLevel, so an entry with a malformed level string does
not abort the remaining entries — but it is not skipped either:
SetRepoLevel discards ParseLevel's error and applies its fallback value
CRITICAL to the targeted loggers before the rest of the list is
applied. -/
theorem setRepoLevels_malformed_applies_critical
    (st : Registry) (cfg : RepoLogLevel) (cfgs : List RepoLogLevel)
    (h : (ParseLevel cfg.Level).2.isSome = true) :
    SetRepoLevels st (cfg :: cfgs) =
      SetRepoLevels
        (if cfg.Repo = "*" then SetGlobalLogLevel st .CRITICAL
         else SetPackageLogLevel st cfg.Repo cfg.Package .CRITICAL) cfgs := by
  have hc := parseLevel_error_value cfg.Level h
  simp only [SetRepoLevels, List.foldl_cons, SetRepoLevel, hc]

/-- Registry with one repository `r` holding one package `p` at INFO,
for the C4 counterexample. -/
def regC4 : Registry := [("r", [("p", .INFO)])]

/-- C4 counterexample: the entry ("r", "p", "bogus") has a malformed
level string, yet applying it via SetRepoLevels changes the registered
logger's level from INFO to CRITICAL — the entry is not skipped, so the
claim as stated is false. -/
theorem setRepoLevels_malformed_changes_level_cex :
    (ParseLevel "bogus").2.isSome = true ∧
    lookupLevel regC4 "r" "p" = some .INFO ∧
    lookupLevel (SetRepoLevels regC4 [⟨"r", "p", "bogus"⟩]) "r" "p" = some .CRITICAL := by
  refine ⟨?_, rfl, ?_⟩ <;> rfl

/-- Witness for `setRepoLevels_malformed_applies_critical` at the
concrete registry `regC4`. -/
theorem setRepoLevels_malformed_applies_critical_witness :
    (ParseLevel "bogus").2.isSome = true ∧
    SetRepoLevels regC4 [⟨"r", "p", "bogus"⟩] =
      SetRepoLevels
        (if "r" = "*" then SetGlobalLogLevel regC4 .CRITICAL
         else SetPackageLogLevel regC4 "r" "p" .CRITICAL) [] :=
  ⟨rfl, setRepoLevels_malformed_applies_critical regC4 ⟨"r", "p", "bogus"⟩ [] rfl⟩

lemma assocLookup_setAll (r : RepoLoggerL) (l : LogLevel) (k : String) :
    assocLookup (setRepoLogLevelInternal r l) k =
      (assocLookup r k).map (fun _ => l) := by
  induction r with
  | nil => rfl
  | cons p rest ih =>
    simp only [setRepoLogLevelInternal, List.map_cons] at *
    by_cases h : p.1 = k <;> simp [assocLookup, h, ih]

lemma assocLookup_setKey (r : RepoLoggerL) (k0 : String) (v : LogLevel) (k : String) :
    assocLookup (r.map (fun p => if p.1 = k0 then (p.1, v) else p)) k =
      if k = k0 then (assocLookup r k).map (fun _ => v) else assocLookup r k := by
  induction r with
  | nil => by_cases h : k = k0 <;> simp [assocLookup, h]
  | cons p rest ih =>
    by_cases hkk : k = k0
    · subst hkk
      by_cases hpk : p.1 = k <;> simp [assocLookup, hpk, ih]
    · by_cases hpk : p.1 = k <;> by_cases hpk0 : p.1 = k0 <;>
        simp [assocLookup, hpk, hpk0, hkk, ih] <;> simp_all

lemma assocLookup_step (acc : RepoLoggerL) (kv : String × LogLevel) (k : String) :
    assocLookup (setLogLevelStep acc kv) k =
      if k = kv.1 then (assocLookup acc k).map (fun _ => kv.2)
      else assocLookup acc k := by
  unfold setLogLevelStep
  rcases hso : assocLookup acc kv.1 with _ | l0
  · simp only [hso, Option.isSome_none, Bool.false_eq_true, if_false]
    by_cases hk : k = kv.1
    · subst hk
      simp [hso]
    · simp [hk]
  · simp only [hso, Option.isSome_some, if_true]
    exact assocLookup_setKey acc kv.1 kv.2 k

/-- C5: applying the batch map containing a wildcard INFO entry and a
pkgB DEBUG entry to any repository yields pkgB at DEBUG and every other
registered package at INFO, whichever of the two iteration orders the Go
map produces; names not registered stay absent. -/
theorem setLogLevel_wildcard_before_specific
    (r : RepoLoggerL) (order : List (String × LogLevel))
    (h : order.Perm [("*", LogLevel.INFO), ("pkgB", LogLevel.DEBUG)]) :
    ∀ k, assocLookup (SetLogLevel order r) k =
      (assocLookup r k).map
        (fun _ => if k = "pkgB" then LogLevel.DEBUG else LogLevel.INFO) := by
  have h2 : order = [("*", LogLevel.INFO), ("pkgB", LogLevel.DEBUG)] ∨
      order = [("pkgB", LogLevel.DEBUG), ("*", LogLevel.INFO)] := by
    have hlen := h.length_eq
    obtain ⟨x, y, rfl⟩ : ∃ x y, order = [x, y] := by
      cases order with
      | nil => simp at hlen
      | cons x t =>
        cases t with
        | nil => simp at hlen
        | cons y t2 =>
          cases t2 with
          | nil => exact ⟨x, y, rfl⟩
          | cons z t3 => simp at hlen
    have hx : x ∈ [("*", LogLevel.INFO), ("pkgB", LogLevel.DEBUG)] :=
      h.subset (by simp)
    have hy : y ∈ [("*", LogLevel.INFO), ("pkgB", LogLevel.DEBUG)] :=
      h.subset (by simp)
    simp only [List.mem_cons, List.not_mem_nil, or_false] at hx hy
    rcases hx with rfl | rfl <;> rcases hy with rfl | rfl
    · exfalso
      have hb : (("pkgB", LogLevel.DEBUG) : String × LogLevel) ∈
          [(("*", LogLevel.INFO) : String × LogLevel), ("*", LogLevel.INFO)] :=
        h.mem_iff.mpr (by simp)
      simp at hb
    · exact Or.inl rfl
    · exact Or.inr rfl
    · exfalso
      have hb : (("*", LogLevel.INFO) : String × LogLevel) ∈
          [(("pkgB", LogLevel.DEBUG) : String × LogLevel), ("pkgB", LogLevel.DEBUG)] :=
        h.mem_iff.mpr (by simp)
      simp at hb
  intro k
  rcases h2 with rfl | rfl
  · have hw : assocLookup [("*", LogLevel.INFO), ("pkgB", LogLevel.DEBUG)] "*" =
        some LogLevel.INFO := rfl
    simp only [SetLogLevel, hw, List.foldl_cons, List.foldl_nil]
    rw [assocLookup_step, assocLookup_step, assocLookup_setAll]
    by_cases hk : k = "pkgB" <;> by_cases hw2 : k = "*" <;>
      simp_all [Option.map_map] <;> rfl
  · have hw : assocLookup [("pkgB", LogLevel.DEBUG), ("*", LogLevel.INFO)] "*" =
        some LogLevel.INFO := rfl
    simp only [SetLogLevel, hw, List.foldl_cons, List.foldl_nil]
    rw [assocLookup_step, assocLookup_step, assocLookup_setAll]
    by_cases hk : k = "pkgB" <;> by_cases hw2 : k = "*" <;>
      simp_all [Option.map_map] <;> rfl

/-- Witness for `setLogLevel_wildcard_before_specific`: the reversed
iteration order applied to a repository registered with pkgA and pkgB
still leaves pkgA at INFO. -/
theorem setLogLevel_wildcard_before_specific_witness :
    (([("pkgB", LogLevel.DEBUG), ("*", LogLevel.INFO)] : List (String × LogLevel)).Perm
      [("*", LogLevel.INFO), ("pkgB", LogLevel.DEBUG)]) ∧
    assocLookup
        (SetLogLevel [("pkgB", LogLevel.DEBUG), ("*", LogLevel.INFO)]
          [("pkgA", LogLevel.ERROR), ("pkgB", LogLevel.ERROR)]) "pkgA" =
      (assocLookup [("pkgA", LogLevel.ERROR), ("pkgB", LogLevel.ERROR)] "pkgA").map
        (fun _ => if "pkgA" = "pkgB" then LogLevel.DEBUG else LogLevel.INFO) :=
  ⟨List.Perm.swap _ _ _,
    setLogLevel_wildcard_before_specific
      [("pkgA", LogLevel.ERROR), ("pkgB", LogLevel.ERROR)]
      [("pkgB", LogLevel.DEBUG), ("*", LogLevel.INFO)]
      (List.Perm.swap _ _ _) "pkgA"⟩

lemma assocLookup_append_none {α : Type} (m1 m2 : List (String × α)) (k : String)
    (h : assocLookup m1 k = none) :
    assocLookup (m1 ++ m2) k = assocLookup m2 k := by
  induction m1 with
  | nil => rfl
  | cons p rest ih =>
    by_cases hp : p.1 = k
    · simp [assocLookup, hp] at h
    · simp only [assocLookup, hp, if_false] at h
      simp only [List.cons_append, assocLookup, hp, if_false]
      exact ih h

lemma assocLookup_mapValueAt {α : Type} (m : List (String × α)) (k0 : String)
    (f : α → α) (k : String) :
    assocLookup (m.map (fun p => if p.1 = k0 then (p.1, f p.2) else p)) k =
      if k = k0 then (assocLookup m k).map f else assocLookup m k := by
  induction m with
  | nil => by_cases h : k = k0 <;> simp [assocLookup, h]
  | cons p rest ih =>
    by_cases hkk : k = k0
    · subst hkk
      by_cases hpk : p.1 = k <;> simp [assocLookup, hpk, ih]
    · by_cases hpk : p.1 = k <;> by_cases hpk0 : p.1 = k0 <;>
        simp [assocLookup, hpk, hpk0, hkk, ih] <;> simp_all

/-- C9: NewPackageLogger is idempotent — the returned level is the
already-registered level when the (repo, pkg) pair exists (and the
registry is returned unchanged, preserving any level configured in
between), and otherwise the pair is registered at the default INFO,
which a subsequent lookup observes. -/
theorem newPackageLogger_idempotent (st : Registry) (repo pkg : String) :
    ((NewPackageLogger st repo pkg).2 = (lookupLevel st repo pkg).getD .INFO) ∧
    (lookupLevel (NewPackageLogger st repo pkg).1 repo pkg =
      some (NewPackageLogger st repo pkg).2) ∧
    (∀ l, lookupLevel st repo pkg = some l → NewPackageLogger st repo pkg = (st, l)) := by
  rcases hr : assocLookup st repo with _ | r
  · refine ⟨?_, ?_, ?_⟩
    · simp [NewPackageLogger, lookupLevel, GetRepoLogger, hr]
    · simp [NewPackageLogger, lookupLevel, GetRepoLogger, hr,
        assocLookup_append_none st _ repo hr, assocLookup]
    · intro l hl
      simp [lookupLevel, GetRepoLogger, hr] at hl
  · rcases hp : assocLookup r pkg with _ | l0
    · refine ⟨?_, ?_, ?_⟩
      · simp [NewPackageLogger, lookupLevel, GetRepoLogger, hr, hp]
      · simp only [NewPackageLogger, lookupLevel, GetRepoLogger, hr, hp]
        rw [assocLookup_mapValueAt st repo (fun v => v ++ [(pkg, LogLevel.INFO)]) repo]
        simp [hr, assocLookup_append_none r _ pkg hp, assocLookup]
      · intro l hl
        simp [lookupLevel, GetRepoLogger, hr, hp] at hl
    · refine ⟨?_, ?_, ?_⟩
      · simp [NewPackageLogger, lookupLevel, GetRepoLogger, hr, hp]
      · simp [NewPackageLogger, lookupLevel, GetRepoLogger, hr, hp]
      · intro l hl
        simp [lookupLevel, GetRepoLogger, hr, hp] at hl
        simp [NewPackageLogger, GetRepoLogger, hr, hp, hl]

/-- Witness for `newPackageLogger_idempotent`: a pair registered at
DEBUG is returned as-is, with the registry unchanged. -/
theorem newPackageLogger_idempotent_witness :
    lookupLevel [("r", [("p", LogLevel.DEBUG)])] "r" "p" = some .DEBUG ∧
    NewPackageLogger [("r", [("p", LogLevel.DEBUG)])] "r" "p" =
      ([("r", [("p", LogLevel.DEBUG)])], .DEBUG) :=
  ⟨rfl,
    (newPackageLogger_idempotent [("r", [("p", LogLevel.DEBUG)])] "r" "p").2.2 .DEBUG rfl⟩

/-- True when some key position (even index) of the kv list holds a
non-string value — the condition under which flatten panics. -/
def hasNonStringKey : List GoVal → Bool
  | [] => false
  | [k] =>
    match k with
    | .vStr _ => false
    | _ => true
  | k :: _ :: tail =>
    (match k with
      | .vStr _ => false
      | _ => true) || hasNonStringKey tail

lemma flattenStep_isNone (pe : Bool) (ks : String) (v : GoVal)
    (r : Option (List GoVal)) : (flattenStep pe ks v r).isNone = r.isNone := by
  cases r with
  | none =>
    unfold flattenStep
    repeat' split
    all_goals simp
  | some l =>
    unfold flattenStep
    split
    · simp
    · dsimp only
      split <;> split <;> simp

/-- C7 (amended): a KV argument list is interpreted as alternating
key/value pairs, and flatten panics exactly when some key position holds
a non-string value; an odd-length list is tolerated rather than
aborted — the dangling key is paired with a nil value (and dropped
unless the printEmpty option is set). -/
theorem flatten_panics_iff_nonstring_key (pe : Bool) (kv : List GoVal) :
    (flattenGo pe kv).isNone = hasNonStringKey kv := by
  have H : ∀ n (kv : List GoVal), kv.length ≤ n →
      (flattenGo pe kv).isNone = hasNonStringKey kv := by
    intro n
    induction n with
    | zero =>
      intro kv h
      have : kv = [] := List.length_eq_zero.mp (Nat.le_zero.mp h)
      subst this
      rfl
    | succ n ih =>
      intro kv h
      match kv with
      | [] => rfl
      | [k] => cases k <;> simp [flattenGo, hasNonStringKey, flattenStep_isNone]
      | k :: v :: tail =>
        cases k <;> simp [flattenGo, hasNonStringKey, flattenStep_isNone] <;>
          exact ih tail (by simp at h; omega)
  exact H kv.length kv le_rfl

/-- C7 counterexample: a KV list of odd length (a single string key) is
not a fatal abort — flatten returns normally (the dangling key's nil
value is dropped), contradicting the claim that an odd count panics. -/
theorem flatten_odd_length_no_panic_cex :
    ([GoVal.vStr "k"] : List GoVal).length % 2 = 1 ∧
    flattenGo false [GoVal.vStr "k"] = some [] :=
  ⟨rfl, rfl⟩

/-- C8: on a handle produced by Initialize, the first Close succeeds —
it returns no error, flushes the file buffer when one exists, restores
the prior global formatter, stops the channel writer when one exists,
and marks the handle closed — while every Close on an already-closed
handle (in particular the handle the first Close leaves behind) returns
the "already closed" error, leaves the handle unchanged, and performs
none of those effects. -/
theorem close_once_then_already_closed
    (buffered hasExtraSink : Bool) (oldF : String) :
    (Logrotator.Close (Initialize buffered hasExtraSink oldF)).1 = none ∧
    (Logrotator.Close (Initialize buffered hasExtraSink oldF)).2.2 =
      ⟨!hasExtraSink, some oldF, buffered⟩ ∧
    (Logrotator.Close (Initialize buffered hasExtraSink oldF)).2.1.closed = true ∧
    (∀ c : Logrotator, c.closed = true →
      Logrotator.Close c = (some "already closed", c, ⟨false, none, false⟩)) := by
  refine ⟨rfl, rfl, rfl, ?_⟩
  intro c hc
  simp [Logrotator.Close, hc]

/-- Witness for `close_once_then_already_closed`: closing the handle of
a buffered, no-extra-sink initialization twice — the second Close errors
with "already closed" and has no effects. -/
theorem close_once_then_already_closed_witness :
    (Logrotator.Close (Initialize true false "prev")).1 = none ∧
    ((Logrotator.Close (Initialize true false "prev")).2.1.closed = true ∧
      Logrotator.Close (Logrotator.Close (Initialize true false "prev")).2.1 =
        (some "already closed", (Logrotator.Close (Initialize true false "prev")).2.1,
          ⟨false, none, false⟩)) :=
  ⟨(close_once_then_already_closed true false "prev").1,
    ⟨(close_once_then_already_closed true false "prev").2.2.1,
      (close_once_then_already_closed true false "prev").2.2.2
        (Logrotator.Close (Initialize true false "prev")).2.1
        (close_once_then_already_closed true false "prev").2.2.1⟩⟩

lemma drainOne_sink_queue (w : ChannelWriter) :
    (w.drainOne).sink ++ (w.drainOne).queue = w.sink ++ w.queue ∧
    (w.drainOne).stopped = w.stopped := by
  unfold ChannelWriter.drainOne
  cases hq : w.queue <;> simp [hq]

lemma drainN_sink_queue (n : Nat) (w : ChannelWriter) :
    (w.drainN n).sink ++ (w.drainN n).queue = w.sink ++ w.queue ∧
    (w.drainN n).stopped = w.stopped := by
  induction n generalizing w with
  | zero => exact ⟨rfl, rfl⟩
  | succ n ih =>
    unfold ChannelWriter.drainN
    refine ⟨?_, ?_⟩
    · rw [(ih w.drainOne).1, (drainOne_sink_queue w).1]
    · rw [(ih w.drainOne).2, (drainOne_sink_queue w).2]

lemma runWrites_drained (bufs : List (List Nat)) :
    ∀ (ds : List Nat) (w : ChannelWriter), w.stopped = false →
      (ChannelWriter.stop (ChannelWriter.runWrites w bufs ds)).sink =
        w.sink ++ w.queue ++ bufs ∧
      (ChannelWriter.runWrites w bufs ds).stopped = false := by
  induction bufs with
  | nil =>
    intro ds w hw
    simp [ChannelWriter.runWrites, ChannelWriter.stop, hw]
  | cons b bs ih =>
    intro ds w hw
    have hwrite : (w.write b).1 = { w with queue := w.queue ++ [b] } := by
      simp [ChannelWriter.write, hw]
    set w1 := ((w.write b).1).drainN (ds.headD 0) with hw1
    have hinv := drainN_sink_queue (ds.headD 0) (w.write b).1
    have hstop : w1.stopped = false := by
      rw [hw1, hinv.2, hwrite]
      exact hw
    have hsq : w1.sink ++ w1.queue = w.sink ++ w.queue ++ [b] := by
      rw [hw1, hinv.1, hwrite]
      simp
    have := ih (ds.drop 1) w1 hstop
    refine ⟨?_, ?_⟩
    · show (ChannelWriter.stop (ChannelWriter.runWrites w1 bs (ds.drop 1))).sink = _
      rw [this.1, hsq]
      simp
    · exact this.2

/-- C2: writing N buffers to the channel writer and then calling Stop
puts exactly those N buffers on the destination sink, in FIFO order,
for every interleaving of the racing background drain steps with the
producer's writes (the `ds` schedule); the writer ends stopped with an
empty queue. The ChannelWriter implementation is modelled from the
spec's drain-to-completion shutdown protocol, its source file being
absent from the repository snapshot. -/
theorem channelWriter_no_loss_fifo (bufs : List (List Nat)) (ds : List Nat) :
    (ChannelWriter.stop (ChannelWriter.runWrites ChannelWriter.init bufs ds)).sink = bufs ∧
    (ChannelWriter.stop (ChannelWriter.runWrites ChannelWriter.init bufs ds)).stopped = true ∧
    (ChannelWriter.stop (ChannelWriter.runWrites ChannelWriter.init bufs ds)).queue = [] := by
  refine ⟨?_, rfl, rfl⟩
  have := (runWrites_drained bufs ds ChannelWriter.init rfl).1
  simpa [ChannelWriter.init] using this

lemma take_append_len {α : Type} (A B : List α) : (A ++ B).take A.length = A := by
  induction A with
  | nil => rfl
  | cons a t ih => simp [ih]

lemma take_append_add {α : Type} (A B : List α) (k : Nat) :
    (A ++ B).take (A.length + k) = A ++ B.take k := by
  induction A with
  | nil => simp
  | cons a t ih => simpa [Nat.succ_add] using ih

lemma heapGetD_set_self (h : GoHeap) (i : Nat) (a : List GoVal)
    (hi : i < h.length) : (h.set i a).getD i [] = a := by
  induction h generalizing i with
  | nil => simp at hi
  | cons x t ih =>
    cases i with
    | zero => rfl
    | succ j =>
      simp only [List.set_cons_succ, List.getD_cons_succ]
      exact ih j (by simpa using hi)

lemma heapGetD_append_left (h h2 : GoHeap) (i : Nat) (hi : i < h.length) :
    (h ++ h2).getD i [] = h.getD i [] := by
  induction h generalizing i with
  | nil => simp at hi
  | cons x t ih =>
    cases i with
    | zero => rfl
    | succ j =>
      simp only [List.cons_append, List.getD_cons_succ]
      exact ih j (by simpa using hi)

lemma heapGetD_append_self (h : GoHeap) (a : List GoVal) :
    (h ++ [a]).getD h.length [] = a := by
  induction h with
  | nil => rfl
  | cons x t ih => simp [ih]

lemma take_two {α : Type} (A B C : List α) :
    (A ++ B ++ C).take (A.length + B.length) = A ++ B := by
  rw [List.append_assoc, take_append_add, take_append_len]

lemma goAppend_reuse (h : GoHeap) (s : GoSlice) (xs : List GoVal)
    (hle : s.len + xs.length ≤ s.cap) :
    goAppend h s xs =
      (h.set s.id (writeAt (h.getD s.id []) s.len xs),
        ⟨s.id, s.len + xs.length, s.cap⟩) := by
  simp [goAppend, hle]

lemma goAppend_alloc (h : GoHeap) (s : GoSlice) (xs : List GoVal)
    (hgt : ¬ s.len + xs.length ≤ s.cap) :
    goAppend h s xs =
      (h ++ [s.view h ++ xs],
        ⟨h.length, (s.view h ++ xs).length, (s.view h ++ xs).length⟩) := by
  simp [goAppend, hgt]

lemma take_len_of_writeAt (h : GoHeap) (s : GoSlice) (xs : List GoVal)
    (hid : s.id < h.length) (hlen : s.len ≤ s.cap)
    (harr : (h.getD s.id []).length = s.cap) :
    ((h.getD s.id []).take s.len).length = s.len := by
  rw [List.length_take]
  omega

lemma view_after_reuse_new (h : GoHeap) (s : GoSlice) (xs : List GoVal)
    (hid : s.id < h.length) (hlen : s.len ≤ s.cap)
    (harr : (h.getD s.id []).length = s.cap) :
    GoSlice.view ⟨s.id, s.len + xs.length, s.cap⟩
        (h.set s.id (writeAt (h.getD s.id []) s.len xs)) =
      s.view h ++ xs := by
  unfold GoSlice.view writeAt
  rw [heapGetD_set_self _ _ _ hid]
  have h2 := take_two ((h.getD s.id []).take s.len) xs
    ((h.getD s.id []).drop (s.len + xs.length))
  rw [take_len_of_writeAt h s xs hid hlen harr] at h2
  exact h2

lemma view_after_reuse_old (h : GoHeap) (s : GoSlice) (xs : List GoVal)
    (hid : s.id < h.length) (hlen : s.len ≤ s.cap)
    (harr : (h.getD s.id []).length = s.cap) :
    GoSlice.view s (h.set s.id (writeAt (h.getD s.id []) s.len xs)) =
      s.view h := by
  unfold GoSlice.view writeAt
  rw [heapGetD_set_self _ _ _ hid]
  have h2 := take_append_len ((h.getD s.id []).take s.len)
    (xs ++ (h.getD s.id []).drop (s.len + xs.length))
  rw [take_len_of_writeAt h s xs hid hlen harr] at h2
  rw [List.append_assoc]
  exact h2

lemma writeAt_length (h : GoHeap) (s : GoSlice) (xs : List GoVal)
    (hid : s.id < h.length) (hle : s.len + xs.length ≤ s.cap)
    (harr : (h.getD s.id []).length = s.cap) :
    (writeAt (h.getD s.id []) s.len xs).length = s.cap := by
  unfold writeAt
  simp only [List.length_append, List.length_take, List.length_drop]
  omega

/-- C6 (amended): WithValues returns a new handle with the same
identity and level whose visible pairs are the receiver's pairs followed
by the supplied ones, and the receiver's own visible pairs (and slice
header) are unchanged — but the appended copy is not independent: when
the receiver's slice has spare capacity, the new handle shares the
receiver's backing array, so a later WithValues on the receiver can
overwrite the pairs observed through the earlier returned handle (see
the counterexample). -/
theorem withValues_appends_without_mutating_original
    (h : GoHeap) (p : PackageLoggerMem) (kv : List GoVal)
    (hwf : p.values.WF h) :
    (p.withValues h kv).2.pkg = p.pkg ∧
    (p.withValues h kv).2.level = p.level ∧
    (p.withValues h kv).2.values.view (p.withValues h kv).1 =
      p.values.view h ++ kv ∧
    p.values.view (p.withValues h kv).1 = p.values.view h ∧
    (p.withValues h kv).2.values.WF (p.withValues h kv).1 := by
  obtain ⟨hid, hlen, harr⟩ := hwf
  have hv2 : (p.withValues h kv).2.values = (goAppend h p.values kv).2 := rfl
  have hv1 : (p.withValues h kv).1 = (goAppend h p.values kv).1 := rfl
  refine ⟨rfl, rfl, ?_, ?_, ?_⟩ <;> rw [hv1] <;> try rw [hv2]
  · by_cases hle : p.values.len + kv.length ≤ p.values.cap
    · rw [goAppend_reuse h p.values kv hle]
      exact view_after_reuse_new h p.values kv hid hlen harr
    · rw [goAppend_alloc h p.values kv hle]
      show GoSlice.view _ _ = _
      unfold GoSlice.view
      rw [heapGetD_append_self]
      exact List.take_length _
  · by_cases hle : p.values.len + kv.length ≤ p.values.cap
    · rw [goAppend_reuse h p.values kv hle]
      exact view_after_reuse_old h p.values kv hid hlen harr
    · rw [goAppend_alloc h p.values kv hle]
      show GoSlice.view _ _ = _
      unfold GoSlice.view
      rw [heapGetD_append_left h _ p.values.id hid]
  · by_cases hle : p.values.len + kv.length ≤ p.values.cap
    · rw [goAppend_reuse h p.values kv hle]
      refine ⟨by simpa using hid, by simpa using hle, ?_⟩
      rw [heapGetD_set_self _ _ _ hid]
      exact writeAt_length h p.values kv hid hle harr
    · rw [goAppend_alloc h p.values kv hle]
      refine ⟨by simp, le_rfl, ?_⟩
      rw [heapGetD_append_self]

/-- The heap and logger of the C6 counterexample: one backing array of
capacity 4 holding two live elements ("k", "v") — the state Go's append
produces once a growth step leaves spare capacity. -/
def heapC6 : GoHeap := [[.vStr "k", .vStr "v", .vNil, .vNil]]

/-- The C6 logger: values slice of length 2, capacity 4, over `heapC6`. -/
def plogC6 : PackageLoggerMem := ⟨"pkg", .INFO, ⟨0, 2, 4⟩⟩

/-- C6 counterexample: two successive WithValues calls on the same
receiver share its spare-capacity backing array — after the second call,
the pairs observed through the first returned handle have changed from
"a","b" to "c","d", so the accumulated pairs are not an independent copy
and the claim as stated is false. -/
theorem withValues_shared_backing_cex :
    (plogC6.withValues heapC6 [.vStr "a", .vStr "b"]).2.values.view
        (plogC6.withValues heapC6 [.vStr "a", .vStr "b"]).1 =
      [.vStr "k", .vStr "v", .vStr "a", .vStr "b"] ∧
    (plogC6.withValues heapC6 [.vStr "a", .vStr "b"]).2.values.view
        (plogC6.withValues
          (plogC6.withValues heapC6 [.vStr "a", .vStr "b"]).1
          [.vStr "c", .vStr "d"]).1 =
      [.vStr "k", .vStr "v", .vStr "c", .vStr "d"] :=
  ⟨rfl, rfl⟩

/-- Witness for `withValues_appends_without_mutating_original` at the
concrete heap `heapC6`. -/
theorem withValues_appends_without_mutating_original_witness :
    plogC6.values.WF heapC6 ∧
    (plogC6.withValues heapC6 [.vStr "a", .vStr "b"]).2.values.view
        (plogC6.withValues heapC6 [.vStr "a", .vStr "b"]).1 =
      plogC6.values.view heapC6 ++ [.vStr "a", .vStr "b"] :=
  ⟨⟨by decide, by decide, by decide⟩,
    (withValues_appends_without_mutating_original heapC6 plogC6
      [.vStr "a", .vStr "b"] ⟨by decide, by decide, by decide⟩).2.2.1⟩

/-- Well-formed ContextWithKV arguments: even length, string keys (the
conditions under which context.go does not panic). -/
def entriesWF : List GoVal → Bool
  | [] => true
  | [_] => false
  | k :: _ :: rest =>
    (match k with
      | .vStr _ => true
      | _ => false) && entriesWF rest

/-- Specification-side characterization of one key's value after a
ContextWithKV call (written from the claim, for comparison with the
map-maintaining code): walk the pairs left to right, a matching key
replaces the accumulated value, a nil/empty value removes it. -/
def specLatestValue (k : String) (init : Option GoVal) : List GoVal → Option GoVal
  | kk :: v :: rest =>
    specLatestValue k
      (if kk = GoVal.vStr k then (if isRemoveVal v then none else some v) else init)
      rest
  | _ => init

/-- Parse an alternating key/value slice back into pairs. -/
def entryPairs : List GoVal → List (String × GoVal)
  | .vStr k :: v :: rest => (k, v) :: entryPairs rest
  | _ => []

lemma assocLookup_append_general {α : Type} (m1 m2 : List (String × α)) (k : String) :
    assocLookup (m1 ++ m2) k =
      match assocLookup m1 k with
      | some v => some v
      | none => assocLookup m2 k := by
  induction m1 with
  | nil => rfl
  | cons p rest ih =>
    by_cases hp : p.1 = k <;> simp [assocLookup, hp, ih]

lemma assocLookup_none_iff {α : Type} (m : List (String × α)) (k : String) :
    assocLookup m k = none ↔ k ∉ m.map Prod.fst := by
  induction m with
  | nil => simp [assocLookup]
  | cons p rest ih =>
    by_cases hp : p.1 = k
    · subst hp
      simp [assocLookup]
    · simp only [assocLookup, hp, if_false, List.map_cons, List.mem_cons, ih]
      constructor
      · intro h hmem
        rcases hmem with h1 | h2
        · exact hp h1.symm
        · exact h h2
      · intro h hmem
        exact h (Or.inr hmem)

lemma mapLookup_insert (m : KVMap) (k : String) (v : GoVal) (k0 : String) :
    mapLookup (mapInsert m k v) k0 =
      if k0 = k then some v else mapLookup m k0 := by
  unfold mapInsert mapLookup
  cases ha : assocLookup m k with
  | some w =>
    simp only [ha, Option.isSome_some, if_true]
    rw [assocLookup_mapValueAt m k (fun _ => v) k0]
    by_cases hk : k0 = k
    · subst hk
      simp [ha]
    · simp [hk]
  | none =>
    simp only [ha, Option.isSome_none, Bool.false_eq_true, if_false]
    rw [assocLookup_append_general]
    by_cases hk : k0 = k
    · subst hk
      simp [ha, assocLookup]
    · have hk2 : ¬ (k = k0) := fun h => hk h.symm
      cases hb : assocLookup m k0
      · simp [assocLookup, hk2, hk]
      · simp [hk]

lemma mapLookup_delete (m : KVMap) (k : String) (k0 : String) :
    mapLookup (mapDelete m k) k0 =
      if k0 = k then none else mapLookup m k0 := by
  unfold mapDelete mapLookup
  induction m with
  | nil => by_cases hk : k0 = k <;> simp [assocLookup, hk]
  | cons p rest ih =>
    by_cases hp : p.1 = k <;> by_cases hp0 : p.1 = k0 <;>
      by_cases hk : k0 = k <;> simp_all [assocLookup]

lemma keys_insert_nodup (m : KVMap) (k : String) (v : GoVal)
    (hnd : (m.map Prod.fst).Nodup) :
    ((mapInsert m k v).map Prod.fst).Nodup := by
  unfold mapInsert
  cases ha : assocLookup m k with
  | some w =>
    simp only [ha, Option.isSome_some, if_true]
    have : (m.map (fun p => if p.1 = k then (p.1, v) else p)).map Prod.fst =
        m.map Prod.fst := by
      rw [List.map_map]
      refine List.map_congr_left ?_
      intro p _
      by_cases hp : p.1 = k <;> simp [hp]
    rw [this]
    exact hnd
  | none =>
    simp only [ha, Option.isSome_none, Bool.false_eq_true, if_false]
    have hk : k ∉ m.map Prod.fst := (assocLookup_none_iff m k).mp ha
    simp only [List.map_append, List.map_cons, List.map_nil]
    rw [List.nodup_append]
    exact ⟨hnd, List.nodup_singleton k, by simpa using hk⟩

lemma keys_delete_nodup (m : KVMap) (k : String)
    (hnd : (m.map Prod.fst).Nodup) :
    ((mapDelete m k).map Prod.fst).Nodup := by
  unfold mapDelete
  exact ((List.filter_sublist m).map Prod.fst).nodup hnd

lemma entriesWF_even (es : List GoVal) (h : entriesWF es = true) :
    es.length % 2 = 0 := by
  have H : ∀ n (es : List GoVal), es.length ≤ n → entriesWF es = true →
      es.length % 2 = 0 := by
    intro n
    induction n with
    | zero =>
      intro es hl _
      have : es = [] := List.length_eq_zero.mp (Nat.le_zero.mp hl)
      subst this
      rfl
    | succ n ih =>
      intro es hl hwf
      match es with
      | [] => rfl
      | [_] => simp [entriesWF] at hwf
      | k :: v :: rest =>
        have := ih rest (by simp at hl; omega)
          (by cases k <;> simp [entriesWF] at hwf <;> exact hwf)
        simp [List.length_cons]
        omega
  exact H es.length es le_rfl h

lemma processPairs_spec (n : Nat) : ∀ (entries : List GoVal) (m : KVMap),
    entries.length ≤ n → entriesWF entries = true → (m.map Prod.fst).Nodup →
    ∃ m', processPairs m entries = some m' ∧ (m'.map Prod.fst).Nodup ∧
      ∀ k, mapLookup m' k = specLatestValue k (mapLookup m k) entries := by
  induction n with
  | zero =>
    intro entries m hl _ hnd
    have : entries = [] := List.length_eq_zero.mp (Nat.le_zero.mp hl)
    subst this
    exact ⟨m, rfl, hnd, fun k => rfl⟩
  | succ n ih =>
    intro entries m hl hwf hnd
    match entries with
    | [] => exact ⟨m, rfl, hnd, fun k => rfl⟩
    | [_] => simp [entriesWF] at hwf
    | k :: v :: rest =>
      obtain ⟨ks, rfl⟩ : ∃ ks, k = GoVal.vStr ks := by
        cases k <;> simp [entriesWF] at hwf
        · exact ⟨_, rfl⟩
      have hwfr : entriesWF rest = true := by
        simpa [entriesWF] using hwf
      have hlr : rest.length ≤ n := by
        simp at hl
        omega
      by_cases hrem : isRemoveVal v = true
      · obtain ⟨m', hm', hnd', hspec⟩ :=
          ih rest (mapDelete m ks) hlr hwfr (keys_delete_nodup m ks hnd)
        refine ⟨m', by simp [processPairs, hrem, hm'], hnd', ?_⟩
        intro k0
        rw [hspec k0]
        show _ = specLatestValue k0
          (if GoVal.vStr ks = GoVal.vStr k0 then
            (if isRemoveVal v then none else some v)
           else mapLookup m k0) rest
        congr 1
        rw [mapLookup_delete]
        by_cases hk : k0 = ks
        · subst hk
          simp [hrem]
        · have : ¬ (GoVal.vStr ks = GoVal.vStr k0) := by
            simpa using fun h => hk h.symm
          simp [hk, this]
      · obtain ⟨m', hm', hnd', hspec⟩ :=
          ih rest (mapInsert m ks v) hlr hwfr (keys_insert_nodup m ks v hnd)
        refine ⟨m', by simp [processPairs, hrem, hm'], hnd', ?_⟩
        intro k0
        rw [hspec k0]
        show _ = specLatestValue k0
          (if GoVal.vStr ks = GoVal.vStr k0 then
            (if isRemoveVal v then none else some v)
           else mapLookup m k0) rest
        congr 1
        rw [mapLookup_insert]
        by_cases hk : k0 = ks
        · subst hk
          simp [hrem]
        · have : ¬ (GoVal.vStr ks = GoVal.vStr k0) := by
            simpa using fun h => hk h.symm
          simp [hk, this]

lemma entryPairs_foldr (keys : List String) (f : String → GoVal) :
    entryPairs (keys.foldr (fun k acc => GoVal.vStr k :: f k :: acc) []) =
      keys.map (fun k => (k, f k)) := by
  induction keys with
  | nil => rfl
  | cons k ks ih => simp [entryPairs, ih]

lemma mapLookup_of_mem : ∀ (m : KVMap), (m.map Prod.fst).Nodup →
    ∀ p ∈ m, mapLookup m p.1 = some p.2 := by
  intro m
  induction m with
  | nil => simp
  | cons q rest ih =>
    intro hnd p hp
    rw [List.map_cons] at hnd
    have hnd' := List.nodup_cons.mp hnd
    rcases List.mem_cons.mp hp with rfl | hp2
    · simp [mapLookup, assocLookup]
    · have hne : q.1 ≠ p.1 := by
        intro h
        exact hnd'.1 (h ▸ List.mem_map_of_mem Prod.fst hp2)
      simp only [mapLookup, assocLookup, hne, if_false]
      exact ih hnd'.2 p hp2

lemma map_pair_fst {α β : Type} (l : List α) (f : α → β) :
    (l.map (fun k => (k, f k))).map Prod.fst = l := by
  induction l with
  | nil => rfl
  | cons a t ih => simp [ih]

lemma map_fst_pair_eq (m : KVMap) (g : String → GoVal)
    (h : ∀ p ∈ m, g p.1 = p.2) :
    (m.map Prod.fst).map (fun k => (k, g k)) = m := by
  induction m with
  | nil => rfl
  | cons p t ih =>
    simp only [List.map_cons]
    rw [h p (List.mem_cons_self p t), ih (fun q hq => h q (List.mem_cons_of_mem p hq))]

lemma ctxEntries_spec (m : KVMap) (hnd : (m.map Prod.fst).Nodup) :
    (entryPairs (ctxEntries m)).Perm m ∧
    List.Sorted (· < ·) ((entryPairs (ctxEntries m)).map Prod.fst) := by
  unfold ctxEntries
  rw [entryPairs_foldr]
  have hperm : ((m.map Prod.fst).insertionSort (· ≤ ·)).Perm (m.map Prod.fst) :=
    List.perm_insertionSort _ _
  have hsorted : List.Sorted (· ≤ ·) ((m.map Prod.fst).insertionSort (· ≤ ·)) :=
    List.sorted_insertionSort _ _
  have hndk : ((m.map Prod.fst).insertionSort (· ≤ ·)).Nodup :=
    hperm.nodup_iff.mpr hnd
  constructor
  · have h1 : (m.map Prod.fst).map (fun k => (k, (mapLookup m k).getD GoVal.vNil)) = m := by
      refine map_fst_pair_eq m _ ?_
      intro p hp
      rw [mapLookup_of_mem m hnd p hp]
      rfl
    have h2 := hperm.map (fun k => (k, (mapLookup m k).getD GoVal.vNil))
    rw [h1] at h2
    exact h2
  · rw [map_pair_fst]
    exact (hsorted.and hndk).imp (fun h => lt_of_le_of_ne h.1 h.2)

lemma contextWithKV_spec (prior : KVMap) (entries : List GoVal)
    (hnd : (prior.map Prod.fst).Nodup) (hwf : entriesWF entries = true) :
    ∃ m', ContextWithKV (some prior) entries = some m' ∧
      (m'.map Prod.fst).Nodup ∧
      ∀ k, mapLookup m' k = specLatestValue k (mapLookup prior k) entries := by
  obtain ⟨m', hm', hnd', hspec⟩ :=
    processPairs_spec entries.length entries prior le_rfl hwf hnd
  refine ⟨m', ?_, hnd', hspec⟩
  unfold ContextWithKV
  simp [entriesWF_even entries hwf, hm']

lemma applyCalls_from (calls : List (List GoVal)) : ∀ (m : KVMap),
    (m.map Prod.fst).Nodup → (∀ c ∈ calls, entriesWF c = true) →
    ∃ m', calls.foldl (fun acc c => acc.bind (fun mm => ContextWithKV (some mm) c))
        (some m) = some m' ∧
      (m'.map Prod.fst).Nodup ∧
      ∀ k, mapLookup m' k =
        calls.foldl (fun acc c => specLatestValue k acc c) (mapLookup m k) := by
  induction calls with
  | nil => exact fun m hnd _ => ⟨m, rfl, hnd, fun k => rfl⟩
  | cons c cs ih =>
    intro m hnd hwf
    obtain ⟨m1, hm1, hnd1, hspec1⟩ := contextWithKV_spec m c hnd (hwf c (by simp))
    obtain ⟨m', hm', hnd', hspec'⟩ := ih m1 hnd1 (fun c2 hc2 => hwf c2 (by simp [hc2]))
    refine ⟨m', ?_, hnd', ?_⟩
    · simpa [List.foldl_cons, hm1] using hm'
    · intro k
      rw [List.foldl_cons]
      show _ = List.foldl _ (specLatestValue k (mapLookup m k) c) cs
      rw [← hspec1 k]
      exact hspec' k

/-- C10: starting from a fresh context, any sequence of well-formed
ContextWithKV calls maintains a deduplicated key/value map — for every
key, the surviving value is the last one supplied (nil and empty-string
values removing the key) — and the context's entries slice holds exactly
the surviving pairs, alternating key/value, with the keys in strictly
ascending order. -/
theorem contextKV_dedup_sorted (calls : List (List GoVal))
    (hwf : ∀ c ∈ calls, entriesWF c = true) :
    ∃ m', applyCalls calls = some m' ∧
      (∀ k, mapLookup m' k =
        calls.foldl (fun acc c => specLatestValue k acc c) none) ∧
      (entryPairs (ctxEntries m')).Perm m' ∧
      List.Sorted (· < ·) ((entryPairs (ctxEntries m')).map Prod.fst) := by
  obtain ⟨m', hm', hnd', hspec⟩ := applyCalls_from calls [] (by simp) hwf
  have hce := ctxEntries_spec m' hnd'
  refine ⟨m', hm', ?_, hce.1, hce.2⟩
  intro k
  simpa [mapLookup, assocLookup] using hspec k

/-- The call sequence of the C10 witness: set b=2; then a=1 and b=3
(latest b wins); then remove a with a nil value. -/
def callsC10 : List (List GoVal) :=
  [[.vStr "b", .vInt 2],
   [.vStr "a", .vInt 1, .vStr "b", .vInt 3],
   [.vStr "a", .vNil]]

/-- Witness for `contextKV_dedup_sorted` at the concrete sequence
`callsC10`. -/
theorem contextKV_dedup_sorted_witness :
    (∀ c ∈ callsC10, entriesWF c = true) ∧
    (∃ m', applyCalls callsC10 = some m' ∧
      (∀ k, mapLookup m' k =
        callsC10.foldl (fun acc c => specLatestValue k acc c) none) ∧
      (entryPairs (ctxEntries m')).Perm m' ∧
      List.Sorted (· < ·) ((entryPairs (ctxEntries m')).map Prod.fst)) :=
  ⟨by decide, contextKV_dedup_sorted callsC10 (by decide)⟩
